import Mathlib

/-!
Verification of the Price-watcher repository (src/api/index.ts) against its
natural-language specification.  The TypeScript scraping pipeline, the numeric
and currency normalizers, and the HTTP endpoints that mutate stored state are
shallowly embedded below; stateful Prisma calls become explicit state passing
on a `Db` value, cheerio queries become fields of a `Doc` record holding the
exact texts those queries would return, and JavaScript numbers that may be NaN
become `Option ℚ` (with `none` playing the role of NaN).
-/

namespace PriceWatcher

/-! ## Basic string machinery (JS `includes`, `replace`, char filters) -/

/-- Does `pat` occur as a prefix of `l`? -/
def headMatches : List Char → List Char → Bool
  | [], _ => true
  | _ :: _, [] => false
  | a :: as, b :: bs => a = b && headMatches as bs

/-- Does `pat` occur as a contiguous sublist of `l`?  Models JS `includes`. -/
def containsL (pat : List Char) : List Char → Bool
  | [] => pat.isEmpty
  | c :: rest => headMatches pat (c :: rest) || containsL pat rest

/-- JS `hay.includes(pat)` for strings. -/
def containsStr (hay pat : String) : Bool := containsL pat.data hay.data

/-- JS `s.replace(a, b)` for single characters: replaces only the FIRST
occurrence of `a`, exactly like the non-global `.replace(",", ".")` calls in
`scrapeProductData`. -/
def replFirstL (a b : Char) : List Char → List Char
  | [] => []
  | c :: r => if c = a then b :: r else c :: replFirstL a b r

/-- The char class kept by the regex `[^0-9.,]` deletion (digits, period,
comma). -/
def keepNum (c : Char) : Bool := c.isDigit || c = '.' || c = ','

/-- The char class kept by the amazon regex `[^-0-9,.]` deletion: digits,
period, comma AND the minus sign. -/
def keepNumMinus (c : Char) : Bool := c.isDigit || c = '.' || c = ',' || c = '-'

/-! ## JS `parseFloat`

The inputs this program feeds to `parseFloat` are either filtered down to the
alphabet `0-9 . , -` or are raw JSON-LD price strings; on this fragment
`parseFloat` skips leading spaces, consumes an optional sign, then the longest
prefix of the form `digits [. digits]`, returning NaN (here `none`) when that
prefix holds no digit. -/

/-- Numeric value of a digit character. -/
def digToNat (c : Char) : ℕ := c.toNat - 48

/-- Value of a digit string read left to right. -/
def digitsVal (l : List Char) : ℕ := l.foldl (fun a c => 10 * a + digToNat c) 0

/-- The unsigned part of JS `parseFloat`: longest `digits [. digits]` prefix,
`none` when no digit is consumed.  The value `intpart.fracpart` is the
rational `(intpart·10^k + fracpart) / 10^k` with `k` the number of fraction
digits. -/
def parseUnsigned (l : List Char) : Option ℚ :=
  let ip := l.takeWhile Char.isDigit
  let r := l.dropWhile Char.isDigit
  let fp := match r with
    | '.' :: r2 => r2.takeWhile Char.isDigit
    | _ => []
  if ip.isEmpty && fp.isEmpty then none
  else some (mkRat (digitsVal ip * 10 ^ fp.length + digitsVal fp) (10 ^ fp.length))

/-- JS `parseFloat` on a list of characters (`none` = NaN). -/
def parseFloatL (l : List Char) : Option ℚ :=
  match l.dropWhile (fun c => c = ' ') with
  | '-' :: r => (parseUnsigned r).map (fun q => -q)
  | '+' :: r => parseUnsigned r
  | l1 => parseUnsigned l1

/-- JS `parseFloat` on a string (`none` = NaN). -/
def parseFloat (s : String) : Option ℚ := parseFloatL s.data

/-! ## Numeric and currency normalizers, exactly as written in the source -/

/-- `parseFloat(s.replace(/[^0-9.,]/g, "").replace(",", "."))` — the parse
used for meta tags, the generic `span.price` selector, the trendyol override
and the fallback scanner. -/
def normPrice (s : String) : Option ℚ :=
  parseFloat ⟨replFirstL ',' '.' (s.data.filter keepNum)⟩

/-- The amazon `.a-offscreen` parse: filter to `[-0-9,.]`; when both a comma
and a period survive, delete every period and replace the first comma with a
period; with only a comma, replace the first comma; otherwise parse directly. -/
def amazonNorm (s : String) : Option ℚ :=
  let clean := s.data.filter keepNumMinus
  if clean.contains ',' && clean.contains '.' then
    parseFloat ⟨replFirstL ',' '.' (clean.filter (fun c => c ≠ '.'))⟩
  else if clean.contains ',' then
    parseFloat ⟨replFirstL ',' '.' clean⟩
  else
    parseFloat ⟨clean⟩

/-- The amazon whole/fraction parse: digits of `.a-price-whole`, digits of
`.a-price-fraction` (defaulting to `"00"` when empty), joined by a period. -/
def amazonWF (wholeTxt fracTxt : String) : Option ℚ :=
  let w := wholeTxt.data.filter Char.isDigit
  let f0 := fracTxt.data.filter Char.isDigit
  let f := if f0.isEmpty then ['0', '0'] else f0
  parseFloat ⟨w ++ '.' :: f⟩

/-- The currency-code mapping chained ternary used at both the JSON-LD and
meta-tag sites: TRY→"₺", USD→"$", EUR→"€", anything else passes through. -/
def mapCur (c : String) : String :=
  if c = "TRY" then "₺" else if c = "USD" then "$" else if c = "EUR" then "€" else c

/-- Inline currency-symbol sniffing from a price text, keeping the current
currency when no symbol occurs (used by the generic selector and the fallback
scanner). -/
def sniff (t cur : String) : String :=
  if containsStr t "$" then "$"
  else if containsStr t "€" then "€"
  else if containsStr t "TL" || containsStr t "₺" then "₺"
  else cur

/-! ## Document model

`scrapeProductData` inspects a cheerio-parsed document solely through a fixed
set of queries; a `Doc` records the answer each of those queries would give.
Text-valued fields hold the `.text().trim()` result of the corresponding
selector; attribute lookups that may be absent are `Option String` (with the
empty string still possible, since JS treats `""` as falsy we test truthiness
explicitly via `jsTruthy`). -/

/-- JS truthiness of an optional string: absent or empty is falsy. -/
def jsTruthy : Option String → Option String
  | some "" => none
  | o => o

/-- First truthy value of an `a || b || ...` chain of attribute lookups. -/
def firstTruthy : List (Option String) → Option String
  | [] => none
  | o :: r => match jsTruthy o with
    | some s => some s
    | none => firstTruthy r

/-- An `offers` object of a JSON-LD Product entry (first element when the
source JSON held an array). -/
structure Offer where
  price : Option String
  priceCurrency : Option String
deriving DecidableEq

/-- One entry of a parsed JSON-LD block: whether its `@type` is
`Product`/`http://schema.org/Product`, its `name`, and its collapsed
`offers`. -/
structure LdItem where
  isProduct : Bool
  name : Option String
  offers : Option Offer
deriving DecidableEq

/-- An element matched by the fallback `[class*="price"], [id*="price"]`
sweep: its class attribute, id attribute and trimmed text. -/
structure Elem where
  className : String
  idAttr : String
  text : String
deriving DecidableEq

/-- The answers to every cheerio query `scrapeProductData` performs.  A
`jsonLd` block is `none` when its JSON fails to parse (the `catch (e) {}`
path). -/
structure Doc where
  jsonLd : List (Option (List LdItem))
  ogTitle : Option String
  twitterTitle : Option String
  productPriceAmount : Option String
  ogPriceAmount : Option String
  twitterData1 : Option String
  productPriceCurrency : Option String
  ogPriceCurrency : Option String
  h1ProductName : String
  spanPrice : String
  aOffscreen : String
  aPriceWhole : String
  aPriceFraction : String
  trendyolPrc : String
  h1First : String
  docTitle : String
  elems : List Elem
deriving DecidableEq

/-- A document on which every query comes back empty. -/
def emptyDoc : Doc :=
  ⟨[], none, none, none, none, none, none, none, "", "", "", "", "", "", "", "", []⟩

/-! ## Extractor state and strategy chain -/

/-- The mutable locals of `scrapeProductData` during extraction.  `price` is a
JS number: `none` models NaN, and it starts at `some 0`. -/
structure ExtSt where
  title : String
  price : Option ℚ
  priceText : String
  currency : String
deriving DecidableEq

/-- Initial extractor state: empty title, price `0`, default currency `"₺"`. -/
def initSt : ExtSt := ⟨"", some 0, "", "₺"⟩

/-- JS `price > 0` on a possibly-NaN number (NaN compares false). -/
def gt0 : Option ℚ → Bool
  | some q => 0 < q
  | none => false

/-- JS `price === 0` on a possibly-NaN number (NaN compares false). -/
def eq0 : Option ℚ → Bool
  | some q => q = 0
  | none => false

/-- `if (item.name) title = item.name` of the JSON-LD strategy. -/
def ldApplyName (it : LdItem) (st : ExtSt) : ExtSt :=
  match jsTruthy it.name with
  | some n => { st with title := n }
  | none => st

/-- The `offers` handling of the JSON-LD strategy: parse `offers.price` when
truthy, then map `offers.priceCurrency` when truthy. -/
def ldApplyOffer (off : Offer) (st : ExtSt) : ExtSt :=
  let st2 := match jsTruthy off.price with
    | some p => { st with price := parseFloat p }
    | none => st
  match jsTruthy off.priceCurrency with
  | some c => { st2 with currency := mapCur c }
  | none => st2

/-- The inner `for (const item of items)` loop of the JSON-LD strategy; the
returned flag records whether the `.each` callback returned `false` (a
positive price was found, stopping all further blocks). -/
def jsonLdItems (st : ExtSt) : List LdItem → ExtSt × Bool
  | [] => (st, false)
  | item :: rest =>
    if item.isProduct then
      let st1 := ldApplyName item st
      match item.offers with
      | some off =>
        let st3 := ldApplyOffer off st1
        if gt0 st3.price then (st3, true) else jsonLdItems st3 rest
      | none => jsonLdItems st1 rest
    else jsonLdItems st rest

/-- The `.each` loop over the JSON-LD script blocks; a malformed block
(`none`) is skipped by the empty catch. -/
def jsonLdBlocks (st : ExtSt) : List (Option (List LdItem)) → ExtSt
  | [] => st
  | none :: rest => jsonLdBlocks st rest
  | some items :: rest =>
    let r := jsonLdItems st items
    if r.2 then r.1 else jsonLdBlocks r.1 rest

/-- Strategy 1: structured data (JSON-LD). -/
def ldStage (doc : Doc) (st : ExtSt) : ExtSt := jsonLdBlocks st doc.jsonLd

/-- Strategy 2a: `og:title` / `twitter:title` meta tags, only when title is
still unset. -/
def metaTitleStage (doc : Doc) (st : ExtSt) : ExtSt :=
  if st.title = "" then
    { st with title := (firstTruthy [doc.ogTitle, doc.twitterTitle]).getD "" }
  else st

/-- Strategy 2b: price meta tags, only when `price === 0`, run through
`normPrice`. -/
def metaPriceStage (doc : Doc) (st : ExtSt) : ExtSt :=
  if eq0 st.price then
    match firstTruthy [doc.productPriceAmount, doc.ogPriceAmount, doc.twitterData1] with
    | some mp => { st with price := normPrice mp }
    | none => st
  else st

/-- Strategy 2c: currency meta tags.  NOTE: unlike the title and price steps,
the source applies this whenever a meta currency tag is present, with no
"still unset" guard. -/
def applyMetaCur (doc : Doc) (st : ExtSt) : ExtSt :=
  match firstTruthy [doc.productPriceCurrency, doc.ogPriceCurrency] with
  | some mc => { st with currency := mapCur mc }
  | none => st

/-- Strategy 3a: `h1.product-name` heading, only when title is unset. -/
def selTitleStage (doc : Doc) (st : ExtSt) : ExtSt :=
  if st.title = "" then { st with title := doc.h1ProductName } else st

/-- Strategy 3b: `span.price` with symbol sniffing, only when `price === 0`.
`priceText` is assigned before the truthiness test, exactly as in the
source. -/
def selPriceStage (doc : Doc) (st : ExtSt) : ExtSt :=
  if eq0 st.price then
    let st1 := { st with priceText := doc.spanPrice }
    if doc.spanPrice ≠ "" then
      { st1 with price := normPrice doc.spanPrice,
                 currency := sniff doc.spanPrice st1.currency }
    else st1
  else st

/-- Strategy 4a: the amazon override, keyed by `url.includes("amazon.com")`.
The offscreen node overrides any earlier price; the whole/fraction pair is
used otherwise; when the resulting price is positive the currency is forced
from the url's locale. -/
def amazonStage (url : String) (doc : Doc) (st : ExtSt) : ExtSt :=
  if containsStr url "amazon.com" then
    let st1 :=
      if doc.aOffscreen ≠ "" then
        { st with priceText := doc.aOffscreen, price := amazonNorm doc.aOffscreen }
      else if doc.aPriceWhole ≠ "" then
        { st with price := amazonWF doc.aPriceWhole doc.aPriceFraction }
      else st
    if gt0 st1.price then
      { st1 with currency := if containsStr url ".tr" then "₺" else "$" }
    else st1
  else st

/-- Strategy 4b: the trendyol override, keyed by
`url.includes("trendyol.com")`: currency is forced to `"₺"`, and the
discounted-price node is parsed only when `price === 0`. -/
def trendyolStage (url : String) (doc : Doc) (st : ExtSt) : ExtSt :=
  if containsStr url "trendyol.com" then
    let st1 := { st with currency := "₺" }
    if eq0 st1.price then
      if doc.trendyolPrc ≠ "" then { st1 with price := normPrice doc.trendyolPrc } else st1
    else st1
  else st

/-- Strategy 5a: final title fallback — first `h1`, else the document title,
else the literal `"Unknown Product"`. -/
def titleFallbackStage (doc : Doc) (st : ExtSt) : ExtSt :=
  if st.title = "" then
    { st with title :=
        if doc.h1First ≠ "" then doc.h1First
        else if doc.docTitle ≠ "" then doc.docTitle
        else "Unknown Product" }
  else st

/-- Selector hit of the fallback scanner: class or id attribute contains the
substring `"price"`. -/
def selHit (e : Elem) : Bool :=
  containsStr e.className "price" || containsStr e.idAttr "price"

/-- Skip test of the fallback scanner: text contains `%`, or its length lies
outside `[2, 20]`. -/
def scanSkip (t : String) : Bool :=
  containsStr t "%" || t.data.length < 2 || t.data.length > 20

/-- The scanner's `.each` loop over the candidate elements: first element not
skipped whose parsed price is strictly positive; `return false` stops the
scan there. -/
def scanLoop : List Elem → Option Elem
  | [] => none
  | e :: r =>
    if scanSkip e.text then scanLoop r
    else if gt0 (normPrice e.text) then some e
    else scanLoop r

/-- Strategy 5b body: apply the first scanner hit (price, raw text, sniffed
currency) to the state. -/
def scanStage (doc : Doc) (st : ExtSt) : ExtSt :=
  match scanLoop (doc.elems.filter selHit) with
  | some e =>
    { st with price := normPrice e.text, priceText := e.text,
              currency := sniff e.text st.currency }
  | none => st

/-- Strategy 5b with its `price === 0` guard. -/
def scanGate (doc : Doc) (st : ExtSt) : ExtSt :=
  if eq0 st.price then scanStage doc st else st

/-- The whole ordered strategy chain of `scrapeProductData`, before the final
title truncation and NaN guard. -/
def extractCore (url : String) (doc : Doc) : ExtSt :=
  scanGate doc
    (titleFallbackStage doc
      (trendyolStage url doc
        (amazonStage url doc
          (selPriceStage doc
            (selTitleStage doc
              (applyMetaCur doc
                (metaPriceStage doc
                  (metaTitleStage doc
                    (ldStage doc initSt)))))))))

/-- `title.substring(0, 97) + "..."` applied when the title exceeds 100
characters. -/
def truncTitle (t : String) : String :=
  if 100 < t.data.length then String.mk (t.data.take 97 ++ ('.' :: '.' :: '.' :: [])) else t

/-- The successful payload of `scrapeProductData`: final title, price with the
`isNaN(price) ? 0 : price` guard applied, currency, and the raw price text. -/
structure ExtractionOk where
  title : String
  price : ℚ
  currency : String
  rawPrice : String
deriving DecidableEq

/-- The full extraction of a successfully fetched document. -/
def extract (url : String) (doc : Doc) : ExtractionOk :=
  let st := extractCore url doc
  ⟨truncTitle st.title, st.price.getD 0, st.currency, st.priceText⟩

/-! ## Fetch layer and `scrapeProductData` / `scrapePrice` -/

/-- A fetch-stage failure: the aborted (timed-out) request or a network
error.  Both surface as a thrown exception caught by `scrapeProductData`. -/
inductive FetchError where
  | timeout
  | network
deriving DecidableEq

/-- The `error.message` the caught exception carries. -/
def fetchErrMsg : FetchError → String
  | .timeout => "The operation was aborted"
  | .network => "fetch failed"

/-- An HTTP response as `scrapeProductData` sees it: the `ok` flag (2xx), the
status text, and the parsed body. -/
structure HttpResponse where
  ok : Bool
  statusText : String
  doc : Doc
deriving DecidableEq

/-- The union returned by `scrapeProductData`: `{success: true, ...}` or
`{success: false, error}`. -/
inductive ScrapeResult where
  | ok : ExtractionOk → ScrapeResult
  | err : String → ScrapeResult
deriving DecidableEq

/-- `scrapeProductData(url)` given the outcome of its fetch: a fetch failure
or a non-2xx status throws into the catch branch (`success: false`) before
any body is read; otherwise the body is extracted. -/
def scrapeProductData (url : String) (fetched : Except FetchError HttpResponse) :
    ScrapeResult :=
  match fetched with
  | .error e => .err (fetchErrMsg e)
  | .ok resp =>
    if resp.ok then .ok (extract url resp.doc)
    else .err ("Failed to fetch URL: " ++ resp.statusText)

/-- The triple returned by `scrapePrice`. -/
structure SPrice where
  price : ℚ
  title : String
  currency : String
deriving DecidableEq

/-- `scrapePrice(url)`: collapses any failure (and any non-positive price)
into price `0`, with the default title and currency on failure. -/
def scrapePrice (url : String) (fetched : Except FetchError HttpResponse) : SPrice :=
  match scrapeProductData url fetched with
  | .ok r => ⟨if 0 < r.price then r.price else 0, r.title, r.currency⟩
  | .err _ => ⟨0, "Unknown Product", "₺"⟩

/-! ## Stored state and the endpoints that mutate it

Prisma rows become records; the database becomes an explicit `Db` value.
Price-history rows are kept most-recent-first (new samples are consed). -/

/-- A `product` row. -/
structure Product where
  id : ℕ
  userId : ℕ
  url : String
  title : String
  currentPrice : ℚ
  currency : String
deriving DecidableEq

/-- A `priceHistory` row. -/
structure Sample where
  productId : ℕ
  price : ℚ
deriving DecidableEq

/-- The stored state the endpoints read and write. -/
structure Db where
  products : List Product
  history : List Sample
deriving DecidableEq

/-- `prisma.product.update({where: {id}, data: {currentPrice, currency}})`:
rewrite the matching row(s), leaving every other row untouched. -/
def updateProduct (ps : List Product) (pid : ℕ) (price : ℚ) (cur : String) :
    List Product :=
  ps.map (fun q => if q.id = pid then { q with currentPrice := price, currency := cur } else q)

/-- `prisma.product.findFirst({where: {id, userId}})` — the ownership guard
shared by the manual check and delete endpoints. -/
def findOwned (db : Db) (pid userId : ℕ) : Option Product :=
  db.products.find? (fun p => p.id == pid && p.userId == userId)

/-- An endpoint outcome: the HTTP status it responds with and the stored
state afterwards. -/
structure EndpointResult where
  status : ℕ
  db : Db
deriving DecidableEq

/-- `POST /api/products/:id/check`: 404 when no product of the requesting
user matches; otherwise scrape, then unconditionally overwrite the stored
price/currency and append a history sample at the scraped price. -/
def checkEndpoint (db : Db) (userId pid : ℕ)
    (fetched : Except FetchError HttpResponse) : EndpointResult :=
  match findOwned db pid userId with
  | none => ⟨404, db⟩
  | some product =>
    let r := scrapePrice product.url fetched
    ⟨200, ⟨updateProduct db.products pid r.price r.currency,
           ⟨pid, r.price⟩ :: db.history⟩⟩

/-- `DELETE /api/products/:id`: 404 when no product of the requesting user
matches; otherwise delete the product's history rows first, then the product
row. -/
def deleteEndpoint (db : Db) (userId pid : ℕ) : EndpointResult :=
  match findOwned db pid userId with
  | none => ⟨404, db⟩
  | some _ =>
    let db1 : Db := ⟨db.products, db.history.filter (fun s => !(s.productId == pid))⟩
    ⟨200, ⟨db1.products.filter (fun p => !(p.id == pid)), db1.history⟩⟩

/-! ## The batch sweep (`GET /api/cron/check`)

The sweep snapshots the product list, then processes each product inside its
own try/catch.  Outcomes of the outside world are an `Env`: what each url's
fetch returns, and whether the persistence write for a given product id
succeeds (a failing write throws into the per-product catch).  E-mail
dispatch swallows its own errors and touches no stored state, so it does not
appear in the state transition. -/

/-- The sweep's external collaborators. -/
structure Env where
  fetch : String → Except FetchError HttpResponse
  persistOk : ℕ → Bool

/-- The `scrapePrice` outcome the sweep sees for one product. -/
def scrapeOf (env : Env) (p : Product) : SPrice := scrapePrice p.url (env.fetch p.url)

/-- Does the sweep's loop body for `p` reach `updatedCount++`?  (Scraped
price strictly positive, and the persistence write did not throw.) -/
def checkSucceeds (env : Env) (p : Product) : Bool :=
  (0 < (scrapeOf env p).price : Bool) && env.persistOk p.id

/-- The row rewrite the sweep performs for a succeeding product `p`, applied
to a stored row `q` with the same id. -/
def applyCheck (env : Env) (p q : Product) : Product :=
  { q with currentPrice := (scrapeOf env p).price, currency := (scrapeOf env p).currency }

/-- One iteration of the sweep loop: skip on non-positive price, skip (via
the catch) on a failed persistence write, otherwise update the row, append a
sample and bump the counter. -/
def cronStep (env : Env) (acc : Db × ℕ) (p : Product) : Db × ℕ :=
  let r := scrapeOf env p
  if 0 < r.price then
    if env.persistOk p.id then
      (⟨updateProduct acc.1.products p.id r.price r.currency,
        ⟨p.id, r.price⟩ :: acc.1.history⟩, acc.2 + 1)
    else acc
  else acc

/-- The sweep loop over a worklist of snapshotted products. -/
def cronRun (env : Env) (todo : List Product) (acc : Db × ℕ) : Db × ℕ :=
  todo.foldl (cronStep env) acc

/-- `GET /api/cron/check`: run the loop over all stored products and report
the number updated. -/
def cronCheck (env : Env) (db : Db) : Db × ℕ := cronRun env db.products (db, 0)

/-- Pointwise form of the sweep's effect on one stored row: the first
worklist entry with the same id whose check succeeds rewrites it; otherwise
it is untouched. -/
def sweepRow (env : Env) (todo : List Product) (q : Product) : Product :=
  match todo.find? (fun p => p.id == q.id && checkSucceeds env p) with
  | some p => applyCheck env p q
  | none => q

/-- Non-negativity-or-NaN of an intermediate extractor price. -/
def NN (p : Option ℚ) : Prop := ∀ q : ℚ, p = some q → 0 ≤ q

/-- No truthy `offers.price` string of any well-formed JSON-LD block of the
document carries a minus sign (the JSON-LD numeric parse is the one site that
feeds `parseFloat` unfiltered). -/
def ldMinusFree (doc : Doc) : Prop :=
  ∀ b ∈ doc.jsonLd, ∀ its : List LdItem, b = some its →
    ∀ it ∈ its, ∀ off : Offer, it.offers = some off →
      ∀ ps : String, jsTruthy off.price = some ps → '-' ∉ ps.data

/-! ## Concrete inputs used by counterexamples and witnesses -/

/-- A 2xx response whose document answers every query empty. -/
def respEmpty : HttpResponse := ⟨true, "OK", emptyDoc⟩

/-- One stored product (id 1, user 1) at price 100. -/
def db1 : Db := ⟨[⟨1, 1, "http://x", "T", 100, "₺"⟩], []⟩

/-- A document whose JSON-LD sets currency USD (price 5) and whose
`product:price:currency` meta tag says EUR. -/
def docC4 : Doc :=
  { emptyDoc with
    jsonLd := [some [⟨true, some "X", some ⟨some "5", some "USD"⟩⟩]],
    productPriceCurrency := some "EUR" }

/-- An amazon page whose `.a-offscreen` text is `"-5"`. -/
def docNeg : Doc := { emptyDoc with aOffscreen := "-5" }

/-- A page holding a discount badge `"25% off"` and a price element
`"$19.99"`, both with price-like class attributes. -/
def doc9 : Doc :=
  { emptyDoc with elems := [⟨"discount-price", "", "25% off"⟩, ⟨"price", "", "$19.99"⟩] }

/-- A response whose meta tags carry a plain numeric price. -/
def respWithMetaPrice (amount : String) : HttpResponse :=
  ⟨true, "OK", { emptyDoc with productPriceAmount := some amount }⟩

/-- Three stored products of one user. -/
def db3 : Db :=
  ⟨[⟨1, 1, "uA", "A", 100, "₺"⟩, ⟨2, 1, "uB", "B", 100, "₺"⟩, ⟨3, 1, "uC", "C", 100, "₺"⟩], []⟩

/-- A sweep environment where product B's fetch times out while A and C
scrape prices 50 and 70, and every persistence write succeeds. -/
def env3 : Env :=
  ⟨fun u =>
    if u = "uA" then .ok (respWithMetaPrice "50")
    else if u = "uC" then .ok (respWithMetaPrice "70")
    else .error .timeout,
   fun _ => true⟩

/-! # Theorems -/

/-- C8: the currency-code mapping sends TRY to "₺", USD to "$", EUR to "€",
passes every other string through unchanged, and is idempotent, leaving an
already-mapped symbol such as "₺" unchanged. -/
theorem claim8_currency_map :
    mapCur "TRY" = "₺" ∧ mapCur "USD" = "$" ∧ mapCur "EUR" = "€" ∧
    (∀ s : String, s ≠ "TRY" → s ≠ "USD" → s ≠ "EUR" → mapCur s = s) ∧
    (∀ s : String, mapCur (mapCur s) = mapCur s) := by
  refine ⟨by decide, by decide, by decide, ?_, ?_⟩
  · intro s h1 h2 h3
    simp [mapCur, h1, h2, h3]
  · intro s
    by_cases h1 : s = "TRY"
    · subst h1; decide
    · by_cases h2 : s = "USD"
      · subst h2; decide
      · by_cases h3 : s = "EUR"
        · subst h3; decide
        · simp [mapCur, h1, h2, h3]

/-- C8 witness: the pass-through branch applied to the already-mapped symbol
"₺". -/
theorem claim8_witness : mapCur "₺" = "₺" :=
  claim8_currency_map.2.2.2.1 "₺" (by decide) (by decide) (by decide)

/-- C7: the final title fallback uses the first heading, else the document
title, else "Unknown Product", and a title over 100 characters is truncated
to its first 97 characters plus "..." (100 total), titles of length at most
100 being left unchanged. -/
theorem claim7_title_fallback :
    (∀ doc st, st.title = "" →
      (titleFallbackStage doc st).title =
        (if doc.h1First ≠ "" then doc.h1First
         else if doc.docTitle ≠ "" then doc.docTitle else "Unknown Product")) ∧
    (∀ doc st, st.title ≠ "" → (titleFallbackStage doc st).title = st.title) ∧
    (∀ url doc, (extract url doc).title = truncTitle (extractCore url doc).title) ∧
    (∀ t : String, 100 < t.data.length →
      (truncTitle t).data = t.data.take 97 ++ ('.' :: '.' :: '.' :: []) ∧
      (truncTitle t).data.length = 100) ∧
    (∀ t : String, t.data.length ≤ 100 → truncTitle t = t) := by
  refine ⟨?_, ?_, fun _ _ => rfl, ?_, ?_⟩
  · intro doc st h
    simp [titleFallbackStage, h]
  · intro doc st h
    simp [titleFallbackStage, h]
  · intro t h
    have e : truncTitle t = String.mk (t.data.take 97 ++ ('.' :: '.' :: '.' :: [])) := by
      unfold truncTitle
      rw [if_pos h]
    refine ⟨by rw [e], ?_⟩
    rw [e]
    show (t.data.take 97 ++ ('.' :: '.' :: '.' :: [])).length = 100
    rw [List.length_append, List.length_take]
    simp only [List.length_cons, List.length_nil]
    omega
  · intro t h
    unfold truncTitle
    rw [if_neg (by omega)]

/-- C7 witness: the fallback on an empty document yields "Unknown Product",
and a short title survives truncation unchanged. -/
theorem claim7_witness :
    (titleFallbackStage emptyDoc initSt).title = "Unknown Product" ∧
    truncTitle "abc" = "abc" := by
  constructor
  · have h := claim7_title_fallback.1 emptyDoc initSt rfl
    simpa using h
  · exact claim7_title_fallback.2.2.2.2 "abc" (by decide)

/-- C2 counterexample: a timed-out fetch is not surfaced by `scrapePrice` as
an error result — it is converted into the zeroed price / default-title
value `{price: 0, title: "Unknown Product", currency: "₺"}`, with no error
indication left in the returned type. -/
theorem claim2_counterexample :
    scrapePrice "http://example.com" (.error .timeout) = ⟨0, "Unknown Product", "₺"⟩ := by
  decide

/-- C2 amended: `scrapeProductData` does surface every fetch failure and
every non-2xx status as a `success: false` error result, and for a non-2xx
response the result depends only on the status text — no body is extracted;
it is the wrapper `scrapePrice` that converts these failures into a zeroed
default value. -/
theorem claim2_amended :
    (∀ url e, scrapeProductData url (.error e) = .err (fetchErrMsg e)) ∧
    (∀ url (r : HttpResponse), r.ok = false →
      scrapeProductData url (.ok r) = .err ("Failed to fetch URL: " ++ r.statusText)) ∧
    (∀ url (r r' : HttpResponse), r.ok = false → r'.ok = false →
      r.statusText = r'.statusText →
      scrapeProductData url (.ok r) = scrapeProductData url (.ok r')) := by
  refine ⟨fun _ _ => rfl, ?_, ?_⟩
  · intro url r h
    simp [scrapeProductData, h]
  · intro url r r' h h' hst
    simp [scrapeProductData, h, h', hst]

/-- C2 witness: a 404 response is reported as a fetch error built from its
status text alone. -/
theorem claim2_witness :
    scrapeProductData "http://example.com" (.ok ⟨false, "Not Found", emptyDoc⟩) =
      .err ("Failed to fetch URL: " ++ "Not Found") :=
  claim2_amended.2.1 "http://example.com" ⟨false, "Not Found", emptyDoc⟩ rfl

/-- C3 counterexample: the meta-tag/generic normalizer does NOT implement the
remove-periods rule — on "3.871,45" it yields 3.871, not 3871.45. -/
theorem claim3_counterexample :
    normPrice "3.871,45" = some (3871 / 1000 : ℚ) ∧
    (3871 / 1000 : ℚ) ≠ 387145 / 100 := by
  constructor
  · rw [show normPrice "3.871,45" = some (mkRat 3871 1000) from by decide, Rat.mkRat_eq_div]
    norm_num
  · norm_num

/-- C3 amended: only the amazon offscreen parse implements the
both-separators rule (delete every period, replace the FIRST comma with a
period — which agrees with the claim on texts with a single comma, so
"3.871,45" → 3871.45 there, but uses the first comma in general, e.g.
"1.1,2,3" → 11.2); the other normalization sites keep periods and replace
only the first comma, so "3.871,45" parses as 3.871 there; "12,99" → 12.99
and "1299" → 1299 hold at every site. -/
theorem claim3_amended :
    amazonNorm "3.871,45" = some (387145 / 100 : ℚ) ∧
    normPrice "12,99" = some (1299 / 100 : ℚ) ∧
    amazonNorm "12,99" = some (1299 / 100 : ℚ) ∧
    normPrice "1299" = some 1299 ∧
    amazonNorm "1299" = some 1299 ∧
    amazonNorm "1.1,2,3" = some (56 / 5 : ℚ) ∧
    (∀ s : String,
      ((s.data.filter keepNumMinus).contains ',') = true →
      ((s.data.filter keepNumMinus).contains '.') = true →
      amazonNorm s =
        parseFloat
          ⟨replFirstL ',' '.' ((s.data.filter keepNumMinus).filter (fun c => c ≠ '.'))⟩) := by
  refine ⟨?_, ?_, ?_, ?_, ?_, ?_, ?_⟩
  · rw [show amazonNorm "3.871,45" = some (mkRat 387145 100) from by decide, Rat.mkRat_eq_div]
    norm_num
  · rw [show normPrice "12,99" = some (mkRat 1299 100) from by decide, Rat.mkRat_eq_div]
    norm_num
  · rw [show amazonNorm "12,99" = some (mkRat 1299 100) from by decide, Rat.mkRat_eq_div]
    norm_num
  · rw [show normPrice "1299" = some (mkRat 1299 1) from by decide, Rat.mkRat_eq_div]
    norm_num
  · rw [show amazonNorm "1299" = some (mkRat 1299 1) from by decide, Rat.mkRat_eq_div]
    norm_num
  · rw [show amazonNorm "1.1,2,3" = some (mkRat 56 5) from by decide, Rat.mkRat_eq_div]
    norm_num
  · intro s h1 h2
    simp only [amazonNorm]
    rw [h1, h2]
    rfl

/-- C3 witness: the amazon both-separators branch applied to "3.871,45". -/
theorem claim3_witness :
    amazonNorm "3.871,45" =
      parseFloat
        ⟨replFirstL ',' '.'
          ((("3.871,45" : String).data.filter keepNumMinus).filter (fun c => c ≠ '.'))⟩ :=
  claim3_amended.2.2.2.2.2.2 "3.871,45" (by decide) (by decide)

/-- C4 counterexample: on a page whose JSON-LD sets currency USD (mapped to
"$") with a positive price and whose `product:price:currency` meta tag says
EUR, the extractor reports "€" — the meta-tag strategy overwrote the
currency set by the higher-priority JSON-LD strategy. -/
theorem claim4_counterexample :
    (extract "http://shop.example" docC4).currency = "€" ∧
    mapCur "USD" = "$" ∧ ("€" : String) ≠ "$" := by
  refine ⟨by decide, by decide, by decide⟩

/-- C4 amended: title and price are first-writer-wins, but the meta-tag
currency step carries no "still unset" guard: whenever a currency meta tag
is present it overwrites the current currency regardless of what JSON-LD
set, and the final currency on the counterexample page is the meta value
"€" whether or not the JSON-LD block is present. -/
theorem claim4_amended :
    (∀ doc st mc, firstTruthy [doc.productPriceCurrency, doc.ogPriceCurrency] = some mc →
      (applyMetaCur doc st).currency = mapCur mc) ∧
    (extract "http://shop.example" docC4).currency = "€" ∧
    (extract "http://shop.example" { docC4 with jsonLd := [] }).currency = "€" := by
  refine ⟨?_, by decide, by decide⟩
  intro doc st mc h
  simp [applyMetaCur, h]

/-- C4 witness: the meta-currency step overwrites a currency slot already
holding "$". -/
theorem claim4_witness :
    (applyMetaCur docC4 ⟨"X", some 5, "", "$"⟩).currency = mapCur "EUR" :=
  claim4_amended.1 docC4 ⟨"X", some 5, "", "$"⟩ "EUR" rfl

/-- C1 counterexample: a manual check whose extraction finds nothing (price
0) does mutate stored state — the stored price 100 is overwritten with 0 and
a zero-price history sample is appended. -/
theorem claim1_counterexample :
    checkEndpoint db1 1 1 (.ok respEmpty) =
      ⟨200, ⟨[⟨1, 1, "http://x", "T", 0, "₺"⟩], [⟨1, 0⟩]⟩⟩ ∧ (0 : ℚ) ≠ 100 := by
  refine ⟨by decide, by norm_num⟩

/-- C9: the fallback scanner runs only while `price === 0`; over the
elements whose class or id contains "price" it returns the first one that is
not skipped (no "%", length within [2, 20]) and parses to a strictly
positive number, setting price, raw text and sniffed currency from that
element and stopping there; on the spec's example the "25% off" badge is
skipped and "$19.99" is accepted. -/
theorem claim9_fallback_scanner :
    (∀ doc st, eq0 st.price = false → scanGate doc st = st) ∧
    (∀ doc st, eq0 st.price = true → scanGate doc st = scanStage doc st) ∧
    (∀ m : List Elem, scanLoop m =
      (m.filter (fun e => !scanSkip e.text && gt0 (normPrice e.text))).head?) ∧
    (∀ doc st e, scanLoop (doc.elems.filter selHit) = some e →
      scanStage doc st =
        { st with price := normPrice e.text, priceText := e.text,
                  currency := sniff e.text st.currency }) ∧
    (∀ doc st, scanLoop (doc.elems.filter selHit) = none → scanStage doc st = st) ∧
    scanSkip "25% off" = true ∧
    (scanStage doc9 initSt).price = some (1999 / 100 : ℚ) ∧
    (scanStage doc9 initSt).priceText = "$19.99" ∧
    (scanStage doc9 initSt).currency = "$" := by
  refine ⟨?_, ?_, ?_, ?_, ?_, by decide, ?_, by decide, by decide⟩
  · intro doc st h
    simp [scanGate, h]
  · intro doc st h
    simp [scanGate, h]
  · intro m
    induction m with
    | nil => rfl
    | cons e r ih =>
      by_cases hs : scanSkip e.text = true
      · simp [scanLoop, hs, ih, List.filter_cons]
      · by_cases hg : gt0 (normPrice e.text) = true
        · simp [scanLoop, hs, hg, List.filter_cons]
        · simp [scanLoop, hs, hg, ih, List.filter_cons]
  · intro doc st e h
    simp [scanStage, h]
  · intro doc st h
    simp [scanStage, h]
  · rw [show (scanStage doc9 initSt).price = some (mkRat 1999 100) from by decide,
        Rat.mkRat_eq_div]
    norm_num

/-- C9 witness: the no-positive-price guard applied at a state whose price
is already set. -/
theorem claim9_witness : scanGate doc9 ⟨"X", some 5, "", "₺"⟩ = ⟨"X", some 5, "", "₺"⟩ :=
  claim9_fallback_scanner.1 doc9 ⟨"X", some 5, "", "₺"⟩ (by decide)

/-- C10: the manual check and delete endpoints are scoped to the requesting
user: when no product with the requested id belongs to that user they answer
404 and leave the stored state untouched; a delete of an owned product
removes exactly that product's history samples and product row (its history
first), leaving no sample with that product id behind. -/
theorem claim10_ownership :
    (∀ db uid pid f, findOwned db pid uid = none → checkEndpoint db uid pid f = ⟨404, db⟩) ∧
    (∀ db uid pid, findOwned db pid uid = none → deleteEndpoint db uid pid = ⟨404, db⟩) ∧
    (∀ db uid pid (p : Product), findOwned db pid uid = some p →
      deleteEndpoint db uid pid =
        ⟨200, ⟨db.products.filter (fun q => !(q.id == pid)),
               db.history.filter (fun s => !(s.productId == pid))⟩⟩) ∧
    (∀ db uid pid (p : Product), findOwned db pid uid = some p →
      ∀ s, s ∈ (deleteEndpoint db uid pid).db.history → s.productId ≠ pid) := by
  have hdel : ∀ db uid pid (p : Product), findOwned db pid uid = some p →
      deleteEndpoint db uid pid =
        ⟨200, ⟨db.products.filter (fun q => !(q.id == pid)),
               db.history.filter (fun s => !(s.productId == pid))⟩⟩ := by
    intro db uid pid p h
    simp [deleteEndpoint, h]
  refine ⟨?_, ?_, hdel, ?_⟩
  · intro db uid pid f h
    simp [checkEndpoint, h]
  · intro db uid pid h
    simp [deleteEndpoint, h]
  · intro db uid pid p h s hs
    rw [hdel db uid pid p h] at hs
    simp only [List.mem_filter] at hs
    simpa using hs.2

/-- C10 witness: a check for a product id not owned by the requester answers
404 and leaves the state unchanged, and deleting the owned product id 1
leaves no history rows mentioning it. -/
theorem claim10_witness :
    checkEndpoint db1 2 1 (.ok respEmpty) = ⟨404, db1⟩ ∧
    deleteEndpoint db1 1 1 = ⟨200, ⟨[], []⟩⟩ := by
  constructor
  · exact claim10_ownership.1 db1 2 1 (.ok respEmpty) (by decide)
  · rw [claim10_ownership.2.2.1 db1 1 1 ⟨1, 1, "http://x", "T", 100, "₺"⟩ (by decide)]
    decide

/-! ## Batch-sweep characterization lemmas -/

/-- The loop body leaves the accumulator unchanged for a product whose check
does not succeed. -/
theorem cronStep_of_not_succeeds (env : Env) (acc : Db × ℕ) (p : Product)
    (h : checkSucceeds env p = false) : cronStep env acc p = acc := by
  unfold cronStep checkSucceeds at *
  by_cases h1 : (0 : ℚ) < (scrapeOf env p).price
  · simp [h1] at h ⊢
    simp [h]
  · simp [h1]

/-- The loop body for a succeeding product: row rewrite, sample cons,
counter bump. -/
theorem cronStep_of_succeeds (env : Env) (acc : Db × ℕ) (p : Product)
    (h : checkSucceeds env p = true) :
    cronStep env acc p =
      (⟨updateProduct acc.1.products p.id (scrapeOf env p).price (scrapeOf env p).currency,
        ⟨p.id, (scrapeOf env p).price⟩ :: acc.1.history⟩, acc.2 + 1) := by
  unfold checkSucceeds at h
  rw [Bool.and_eq_true] at h
  obtain ⟨h1, h2⟩ := h
  rw [decide_eq_true_eq] at h1
  unfold cronStep
  simp [h1, h2]

/-- The sweep's reported count is the number of products whose check
succeeds, independently of the other products' outcomes. -/
theorem cronRun_count (env : Env) :
    ∀ (todo : List Product) (acc : Db × ℕ),
      (cronRun env todo acc).2 = acc.2 + (todo.filter (checkSucceeds env)).length := by
  intro todo
  induction todo with
  | nil => intro acc; simp [cronRun]
  | cons p r ih =>
    intro acc
    have hrun : cronRun env (p :: r) acc = cronRun env r (cronStep env acc p) := rfl
    by_cases hp : checkSucceeds env p = true
    · rw [hrun, ih, cronStep_of_succeeds env acc p hp]
      simp [List.filter_cons, hp]
      omega
    · rw [Bool.not_eq_true] at hp
      rw [hrun, ih, cronStep_of_not_succeeds env acc p hp]
      simp [List.filter_cons, hp]

/-- The sweep's final history is the old history with one new sample, at the
scraped price, consed per succeeding product (in reverse processing order);
failing products contribute nothing. -/
theorem cronRun_history (env : Env) :
    ∀ (todo : List Product) (acc : Db × ℕ),
      (cronRun env todo acc).1.history =
        ((todo.filter (checkSucceeds env)).reverse.map
          (fun p => Sample.mk p.id (scrapeOf env p).price)) ++ acc.1.history := by
  intro todo
  induction todo with
  | nil => intro acc; simp [cronRun]
  | cons p r ih =>
    intro acc
    have hrun : cronRun env (p :: r) acc = cronRun env r (cronStep env acc p) := rfl
    by_cases hp : checkSucceeds env p = true
    · rw [hrun, ih, cronStep_of_succeeds env acc p hp]
      simp [List.filter_cons, hp, List.reverse_cons, List.map_append]
    · rw [Bool.not_eq_true] at hp
      rw [hrun, ih, cronStep_of_not_succeeds env acc p hp]
      simp [List.filter_cons, hp]

/-- With pairwise-distinct worklist ids, the sweep rewrites the stored rows
pointwise: each row's fate depends only on the worklist entry with its own
id. -/
theorem cronRun_products (env : Env) :
    ∀ (todo : List Product) (dbp : List Product) (hist : List Sample) (n : ℕ),
      (todo.map Product.id).Nodup →
      (cronRun env todo (⟨dbp, hist⟩, n)).1.products = dbp.map (sweepRow env todo) := by
  intro todo
  induction todo with
  | nil =>
    intro dbp hist n _
    exact ((List.map_congr_left fun q _ =>
      (rfl : sweepRow env [] q = id q)).trans (List.map_id dbp)).symm
  | cons p r ih =>
    intro dbp hist n hnd
    rw [List.map_cons, List.nodup_cons] at hnd
    obtain ⟨hpid, hnd2⟩ := hnd
    have hrun : cronRun env (p :: r) (⟨dbp, hist⟩, n) =
        cronRun env r (cronStep env (⟨dbp, hist⟩, n) p) := rfl
    by_cases hp : checkSucceeds env p = true
    · rw [hrun, cronStep_of_succeeds env _ p hp]
      rw [ih _ _ _ hnd2, updateProduct, List.map_map]
      apply List.map_congr_left
      intro q _
      by_cases hq : q.id = p.id
      · have e1 : (fun q => if q.id = p.id then
            { q with currentPrice := (scrapeOf env p).price,
                     currency := (scrapeOf env p).currency } else q) q =
            applyCheck env p q := by
          simp [hq, applyCheck]
        simp only [Function.comp_apply, e1]
        have hnone : r.find? (fun x => x.id == (applyCheck env p q).id && checkSucceeds env x)
            = none := by
          rw [List.find?_eq_none]
          intro x hx
          have hxid : x.id ≠ q.id := by
            intro hcontra
            exact hpid (by
              rw [← hcontra] at hq
              exact hq ▸ List.mem_map.mpr ⟨x, hx, rfl⟩)
          simp [applyCheck, hxid]
        have hfind : List.find? (fun x => x.id == q.id && checkSucceeds env x) (p :: r)
            = some p := by
          rw [List.find?_cons_of_pos]
          simp [hq, hp]
        simp only [sweepRow, applyCheck] at *
        rw [hnone, hfind]
      · have e1 : (fun q => if q.id = p.id then
            { q with currentPrice := (scrapeOf env p).price,
                     currency := (scrapeOf env p).currency } else q) q = q := by
          simp [hq]
        simp only [Function.comp_apply, e1, sweepRow]
        rw [List.find?_cons_of_neg]
        simp [Ne.symm hq]
    · rw [Bool.not_eq_true] at hp
      rw [hrun, cronStep_of_not_succeeds env _ p hp, ih _ _ _ hnd2]
      apply List.map_congr_left
      intro q _
      simp only [sweepRow]
      rw [List.find?_cons_of_neg]
      simp [hp]

/-- C5: the batch sweep is per-product isolated and reports an aggregate
count: with distinct product ids, each stored row's outcome is a pointwise
function of that product's own check alone, the history gains exactly one
sample per succeeding product, and the reported count is the number of
products whose check succeeded; concretely, a sweep over three products
where product B's fetch times out still updates A and C and reports 2. -/
theorem claim5_sweep_isolation :
    (∀ env db, (db.products.map Product.id).Nodup →
      (cronCheck env db).1.products = db.products.map (sweepRow env db.products) ∧
      (cronCheck env db).1.history =
        ((db.products.filter (checkSucceeds env)).reverse.map
          (fun p => Sample.mk p.id (scrapeOf env p).price)) ++ db.history ∧
      (cronCheck env db).2 = (db.products.filter (checkSucceeds env)).length) ∧
    cronCheck env3 db3 =
      (⟨[⟨1, 1, "uA", "A", 50, "₺"⟩, ⟨2, 1, "uB", "B", 100, "₺"⟩, ⟨3, 1, "uC", "C", 70, "₺"⟩],
        [⟨3, 70⟩, ⟨1, 50⟩]⟩, 2) := by
  constructor
  · intro env db hnd
    obtain ⟨dbp, hist⟩ := db
    refine ⟨cronRun_products env dbp dbp hist 0 hnd, ?_, ?_⟩
    · exact cronRun_history env dbp (⟨dbp, hist⟩, 0)
    · rw [show cronCheck env ⟨dbp, hist⟩ = cronRun env dbp (⟨dbp, hist⟩, 0) from rfl,
          cronRun_count env dbp (⟨dbp, hist⟩, 0)]
      simp
  · decide

/-- C5 witness: the characterization applied to the three-product example
with distinct ids. -/
theorem claim5_witness :
    (cronCheck env3 db3).1.products = db3.products.map (sweepRow env3 db3.products) ∧
    (cronCheck env3 db3).1.history =
      ((db3.products.filter (checkSucceeds env3)).reverse.map
        (fun p => Sample.mk p.id (scrapeOf env3 p).price)) ++ db3.history ∧
    (cronCheck env3 db3).2 = (db3.products.filter (checkSucceeds env3)).length :=
  claim5_sweep_isolation.1 env3 db3 (by decide)

/-- C1 amended: the "price ≤ 0 mutates nothing" guard holds for the
scheduled sweep — a product whose scrape comes back non-positive keeps its
stored row and gains no history sample — but NOT for the manual per-product
check endpoint, which overwrites the stored price/currency and appends a
history sample at the scraped price unconditionally, even when that price is
0. -/
theorem claim1_amended :
    (∀ env db (p : Product), (db.products.map Product.id).Nodup →
      p ∈ db.products → (scrapeOf env p).price ≤ 0 →
      p ∈ (cronCheck env db).1.products ∧
      (∀ s, s ∈ (cronCheck env db).1.history → s.productId = p.id → s ∈ db.history)) ∧
    (∀ db uid pid f (p : Product), findOwned db pid uid = some p →
      (checkEndpoint db uid pid f).db.history =
        ⟨pid, (scrapePrice p.url f).price⟩ :: db.history ∧
      (checkEndpoint db uid pid f).db.products =
        updateProduct db.products pid (scrapePrice p.url f).price
          (scrapePrice p.url f).currency) := by
  constructor
  · intro env db p hnd hp hle
    have hfail : checkSucceeds env p = false := by
      unfold checkSucceeds
      have : ¬ (0 : ℚ) < (scrapeOf env p).price := not_lt.mpr hle
      simp [this]
    obtain ⟨dbp, hist⟩ := db
    constructor
    · show p ∈ (cronRun env dbp (⟨dbp, hist⟩, 0)).1.products
      rw [cronRun_products env dbp dbp hist 0 hnd]
      have hrow : sweepRow env dbp p = p := by
        unfold sweepRow
        have hnone : dbp.find? (fun x => x.id == p.id && checkSucceeds env x) = none := by
          rw [List.find?_eq_none]
          intro x hx
          by_cases hxid : x.id = p.id
          · have hxp : x = p := List.inj_on_of_nodup_map hnd hx hp hxid
            subst hxp
            simp [hfail]
          · simp [hxid]
        rw [hnone]
      exact List.mem_map.mpr ⟨p, hp, hrow⟩
    · intro s hs hsid
      replace hs : s ∈ (cronRun env dbp (⟨dbp, hist⟩, 0)).1.history := hs
      rw [cronRun_history env dbp (⟨dbp, hist⟩, 0)] at hs
      rcases List.mem_append.mp hs with hnew | hold
      · obtain ⟨q, hq, rfl⟩ := List.mem_map.mp hnew
        rw [List.mem_reverse, List.mem_filter] at hq
        have hqp : q = p := List.inj_on_of_nodup_map hnd hq.1 hp hsid
        rw [hqp] at hq
        rw [hfail] at hq
        exact absurd hq.2 (by simp)
      · exact hold
  · intro db uid pid f p h
    constructor
    · simp [checkEndpoint, h]
    · simp [checkEndpoint, h]

/-- C1 witness: in the three-product sweep, timed-out product B (scraped
price 0 ≤ 0) keeps its stored row and gains no history sample. -/
theorem claim1_witness :
    (⟨2, 1, "uB", "B", 100, "₺"⟩ : Product) ∈ (cronCheck env3 db3).1.products ∧
    (∀ s, s ∈ (cronCheck env3 db3).1.history →
      s.productId = (⟨2, 1, "uB", "B", 100, "₺"⟩ : Product).id → s ∈ db3.history) :=
  claim1_amended.1 env3 db3 ⟨2, 1, "uB", "B", 100, "₺"⟩ (by decide) (by decide) (by decide)

/-! ## Non-negativity of parsed prices on minus-free inputs -/

/-- Membership survives `dropWhile`. -/
theorem mem_of_mem_dropWhile {p : Char → Bool} {c : Char} :
    ∀ {l : List Char}, c ∈ l.dropWhile p → c ∈ l := by
  intro l
  induction l with
  | nil => intro h; simp at h
  | cons a r ih =>
    intro h
    rw [List.dropWhile_cons] at h
    by_cases hp : p a = true
    · rw [if_pos hp] at h
      exact List.mem_cons_of_mem a (ih h)
    · rw [if_neg hp] at h
      exact h

/-- The unsigned parse only produces non-negative values. -/
theorem parseUnsigned_nonneg : ∀ (l : List Char) (q : ℚ),
    parseUnsigned l = some q → 0 ≤ q := by
  intro l q h
  simp only [parseUnsigned] at h
  split at h
  · exact absurd h (by simp)
  · rw [Option.some.injEq] at h
    rw [← h, Rat.mkRat_eq_div]
    positivity

/-- On a list without a minus sign, `parseFloat` only produces non-negative
values. -/
theorem parseFloatL_nonneg : ∀ (l : List Char), '-' ∉ l →
    ∀ q : ℚ, parseFloatL l = some q → 0 ≤ q := by
  intro l hm q h
  unfold parseFloatL at h
  split at h
  next r heq =>
    exact absurd (mem_of_mem_dropWhile (heq ▸ List.mem_cons_self '-' r)) hm
  all_goals exact parseUnsigned_nonneg _ q h

/-- Replacing the first comma with a period introduces no minus sign. -/
theorem no_minus_replFirst : ∀ {l : List Char}, '-' ∉ l →
    '-' ∉ replFirstL ',' '.' l := by
  intro l
  induction l with
  | nil => intro _ h; simp [replFirstL] at h
  | cons c r ih =>
    intro hm h
    rw [replFirstL] at h
    by_cases hc : c = ','
    · rw [if_pos hc] at h
      rcases List.mem_cons.mp h with h1 | h1
      · exact absurd h1 (by decide)
      · exact hm (List.mem_cons_of_mem c h1)
    · rw [if_neg hc] at h
      rcases List.mem_cons.mp h with h1 | h1
      · exact hm (h1 ▸ List.mem_cons_self c r)
      · exact ih (fun hmem => hm (List.mem_cons_of_mem c hmem)) h1

/-- The meta/selector/scanner normalizer only produces non-negative values:
its character filter drops every minus sign. -/
theorem normPrice_nonneg (s : String) : ∀ q : ℚ, normPrice s = some q → 0 ≤ q := by
  intro q h
  unfold normPrice parseFloat at h
  refine parseFloatL_nonneg _ ?_ q h
  show '-' ∉ replFirstL ',' '.' (s.data.filter keepNum)
  apply no_minus_replFirst
  intro hmem
  exact absurd (List.mem_filter.mp hmem).2 (by decide)

/-- The JSON-LD name step never touches the price. -/
theorem ldApplyName_price (it : LdItem) (st : ExtSt) :
    (ldApplyName it st).price = st.price := by
  unfold ldApplyName
  cases jsTruthy it.name <;> rfl

/-- The JSON-LD offer step keeps the price non-negative when the offer's
price string is minus-free. -/
theorem NN_ldApplyOffer (off : Offer) (st : ExtSt) (hst : NN st.price)
    (hcl : ∀ ps : String, jsTruthy off.price = some ps → '-' ∉ ps.data) :
    NN (ldApplyOffer off st).price := by
  unfold ldApplyOffer
  have h2 : NN (match jsTruthy off.price with
      | some p => { st with price := parseFloat p }
      | none => st).price := by
    cases hp : jsTruthy off.price with
    | none => exact hst
    | some p =>
      intro q hq
      exact parseFloatL_nonneg p.data (hcl p hp) q hq
  cases jsTruthy off.priceCurrency with
  | none => exact h2
  | some c => exact h2

/-- The JSON-LD item loop keeps the price non-negative when every offer
price string in the worklist is minus-free. -/
theorem NN_jsonLdItems : ∀ (items : List LdItem) (st : ExtSt), NN st.price →
    (∀ it ∈ items, ∀ off : Offer, it.offers = some off →
      ∀ ps : String, jsTruthy off.price = some ps → '-' ∉ ps.data) →
    NN (jsonLdItems st items).1.price := by
  intro items
  induction items with
  | nil => intro st h _; exact h
  | cons it rest ih =>
    intro st hst hcl
    have hclr : ∀ x ∈ rest, ∀ off : Offer, x.offers = some off →
        ∀ ps : String, jsTruthy off.price = some ps → '-' ∉ ps.data :=
      fun x hx => hcl x (List.mem_cons_of_mem it hx)
    have hst1 : NN (ldApplyName it st).price := by
      rw [ldApplyName_price]; exact hst
    by_cases hip : it.isProduct = true
    · cases hoff : it.offers with
      | none =>
        rw [jsonLdItems, if_pos hip]
        simp only [hoff]
        exact ih (ldApplyName it st) hst1 hclr
      | some off =>
        rw [jsonLdItems, if_pos hip]
        simp only [hoff]
        have hst3 : NN (ldApplyOffer off (ldApplyName it st)).price :=
          NN_ldApplyOffer off _ hst1 (hcl it (List.mem_cons_self it rest) off hoff)
        by_cases hg : gt0 (ldApplyOffer off (ldApplyName it st)).price = true
        · rw [if_pos hg]
          exact hst3
        · rw [if_neg hg]
          exact ih _ hst3 hclr
    · rw [jsonLdItems, if_neg hip]
      exact ih st hst hclr

/-- The JSON-LD block loop keeps the price non-negative on a minus-free
document. -/
theorem NN_jsonLdBlocks : ∀ (blocks : List (Option (List LdItem))) (st : ExtSt),
    NN st.price →
    (∀ b ∈ blocks, ∀ its : List LdItem, b = some its →
      ∀ it ∈ its, ∀ off : Offer, it.offers = some off →
        ∀ ps : String, jsTruthy off.price = some ps → '-' ∉ ps.data) →
    NN (jsonLdBlocks st blocks).price := by
  intro blocks
  induction blocks with
  | nil => intro st h _; exact h
  | cons b rest ih =>
    intro st hst hcl
    have hclr : ∀ x ∈ rest, ∀ its : List LdItem, x = some its →
        ∀ it ∈ its, ∀ off : Offer, it.offers = some off →
          ∀ ps : String, jsTruthy off.price = some ps → '-' ∉ ps.data :=
      fun x hx => hcl x (List.mem_cons_of_mem b hx)
    cases b with
    | none => exact ih st hst hclr
    | some items =>
      rw [jsonLdBlocks]
      have hits : NN (jsonLdItems st items).1.price :=
        NN_jsonLdItems items st hst
          (hcl (some items) (List.mem_cons_self _ rest) items rfl)
      by_cases hflag : (jsonLdItems st items).2 = true
      · rw [if_pos hflag]
        exact hits
      · rw [if_neg hflag]
        exact ih _ hits hclr

/-- The meta-title step never touches the price. -/
theorem metaTitleStage_price (doc : Doc) (st : ExtSt) :
    (metaTitleStage doc st).price = st.price := by
  unfold metaTitleStage
  split <;> rfl

/-- The meta-price step keeps the price non-negative (its normalizer filters
out minus signs). -/
theorem NN_metaPriceStage (doc : Doc) (st : ExtSt) (h : NN st.price) :
    NN (metaPriceStage doc st).price := by
  unfold metaPriceStage
  split
  · split
    next mp heq => intro q hq; exact normPrice_nonneg mp q hq
    next => exact h
  · exact h

/-- The meta-currency step never touches the price. -/
theorem applyMetaCur_price (doc : Doc) (st : ExtSt) :
    (applyMetaCur doc st).price = st.price := by
  unfold applyMetaCur
  split <;> rfl

/-- The generic-selector title step never touches the price. -/
theorem selTitleStage_price (doc : Doc) (st : ExtSt) :
    (selTitleStage doc st).price = st.price := by
  unfold selTitleStage
  split <;> rfl

/-- The generic-selector price step keeps the price non-negative. -/
theorem NN_selPriceStage (doc : Doc) (st : ExtSt) (h : NN st.price) :
    NN (selPriceStage doc st).price := by
  simp only [selPriceStage]
  split
  · split
    · intro q hq
      exact normPrice_nonneg doc.spanPrice q hq
    · exact h
  · exact h

/-- On a url that does not mention amazon.com, the amazon stage is the
identity. -/
theorem amazonStage_skip (url : String) (doc : Doc) (st : ExtSt)
    (h : containsStr url "amazon.com" = false) : amazonStage url doc st = st := by
  simp [amazonStage, h]

/-- The trendyol stage keeps the price non-negative. -/
theorem NN_trendyolStage (url : String) (doc : Doc) (st : ExtSt) (h : NN st.price) :
    NN (trendyolStage url doc st).price := by
  simp only [trendyolStage]
  split
  · split
    · split
      · intro q hq
        exact normPrice_nonneg doc.trendyolPrc q hq
      · exact h
    · exact h
  · exact h

/-- The title fallback never touches the price. -/
theorem titleFallbackStage_price (doc : Doc) (st : ExtSt) :
    (titleFallbackStage doc st).price = st.price := by
  unfold titleFallbackStage
  split <;> rfl

/-- The fallback scanner keeps the price non-negative. -/
theorem NN_scanGate (doc : Doc) (st : ExtSt) (h : NN st.price) :
    NN (scanGate doc st).price := by
  simp only [scanGate]
  split
  · simp only [scanStage]
    split
    next e heq => intro q hq; exact normPrice_nonneg e.text q hq
    next => exact h
  · exact h

/-- On a non-amazon url with a minus-free document, every intermediate
extractor price is non-negative (or NaN). -/
theorem NN_extractCore (url : String) (doc : Doc)
    (hna : containsStr url "amazon.com" = false) (hld : ldMinusFree doc) :
    NN (extractCore url doc).price := by
  unfold extractCore
  apply NN_scanGate
  rw [titleFallbackStage_price]
  apply NN_trendyolStage
  rw [amazonStage_skip url doc _ hna]
  apply NN_selPriceStage
  rw [selTitleStage_price, applyMetaCur_price]
  apply NN_metaPriceStage
  rw [metaTitleStage_price]
  have h0 : NN initSt.price := by
    intro q hq
    have hq0 : (0 : ℚ) = q := Option.some.inj hq
    rw [← hq0]
  exact NN_jsonLdBlocks doc.jsonLd initSt h0 hld

/-- C6 counterexample: the amazon offscreen filter retains the minus sign,
so the page whose `.a-offscreen` text is "-5" produces an extraction result
with price −5 — the `price ≥ 0` invariant fails on this path (while NaN is
still normalized: −5 is returned as-is, not NaN). -/
theorem claim6_counterexample :
    scrapeProductData "https://www.amazon.com/dp/1" (.ok ⟨true, "OK", docNeg⟩) =
      .ok ⟨"Unknown Product", -5, "₺", "-5"⟩ ∧ ¬ (0 : ℚ) ≤ -5 := by
  refine ⟨by decide, by norm_num⟩

/-- C6 amended: a NaN parse is always normalized to price 0 in the final
result, and the `price ≥ 0` invariant does hold for every extraction whose
url avoids the amazon path and whose JSON-LD offer prices carry no minus
sign — the remaining normalization sites filter the minus sign away; the
amazon offscreen filter (which keeps it) breaks the invariant, as the
counterexample shows. -/
theorem claim6_amended :
    (∀ url doc, (extractCore url doc).price = none → (extract url doc).price = 0) ∧
    (∀ url doc, containsStr url "amazon.com" = false → ldMinusFree doc →
      0 ≤ (extract url doc).price) := by
  constructor
  · intro url doc h
    simp [extract, h]
  · intro url doc hna hld
    have hnn := NN_extractCore url doc hna hld
    cases hp : (extractCore url doc).price with
    | none => simp [extract, hp]
    | some q =>
      have he : (extract url doc).price = q := by simp [extract, hp]
      rw [he]
      exact hnn q hp

/-- C6 witness: the non-negativity part applied to a non-amazon url and an
empty (vacuously minus-free) document. -/
theorem claim6_witness : 0 ≤ (extract "http://shop.example" emptyDoc).price :=
  claim6_amended.2 "http://shop.example" emptyDoc (by decide)
    (by intro b hb; exact absurd hb (List.not_mem_nil b))

end PriceWatcher
